import Mathlib

/-!
# Verification of the slurm-monitor parse-and-reconcile layer

Shallow embedding of the parsing, grouping and reconciliation code of the
slurm-monitor extension (`slurmService.ts`, the tree provider, and the
`checkJobStateChanges` reconciler), together with theorems settling the
frozen claims about it.

Conventions:
* JavaScript strings are `String`, JS `number` results of `parseInt` are
  `Option Int` (`none` models `NaN`).
* JS `Map` objects are association lists in insertion order (`mapSet`,
  `mapGet`, `jsMapIncr`, `addGroup` model `set`/`get` and the grouping
  accumulation patterns used by the source).
* Code that shells out is modelled on the captured `CommandResult`
  (success flag, stdout, stderr), exactly as the source consumes it.
-/

namespace SlurmMonitor

/-- JS `String.prototype.split` with a single-character separator, on char
lists: splitting the empty text yields `[[]]` (JS `"".split(c) == [""]`),
and every separator occurrence starts a new (possibly empty) segment. -/
def splitOnChar (sep : Char) : List Char → List (List Char)
  | [] => [[]]
  | c :: rest =>
    if c = sep then [] :: splitOnChar sep rest
    else
      match splitOnChar sep rest with
      | [] => [[c]]
      | h :: t => (c :: h) :: t

/-- JS `s.split(c)` on strings (structural, so it evaluates by `decide`). -/
def jsSplit (s : String) (sep : Char) : List String :=
  (splitOnChar sep s.toList).map String.mk

/-- JS `s.trim()`: drop whitespace from both ends. -/
def jsTrim (s : String) : String :=
  String.mk (((s.toList.dropWhile (·.isWhitespace)).reverse.dropWhile (·.isWhitespace)).reverse)

/-- JS `s.includes(c)` for a single character. -/
def strContainsChar (s : String) (c : Char) : Bool := s.toList.contains c

/-- Model of JavaScript `parseInt(s, 10)`: skip leading whitespace, optional
sign, then the longest run of decimal digits; `none` models `NaN` (no digits
found). -/
def jsParseInt (s : String) : Option Int :=
  let cs := s.toList.dropWhile (·.isWhitespace)
  let signAndRest : Int × List Char :=
    match cs with
    | '-' :: rest => (-1, rest)
    | '+' :: rest => (1, rest)
    | _ => (1, cs)
  let digits := signAndRest.2.takeWhile (·.isDigit)
  if digits.isEmpty then none
  else some (signAndRest.1 * (digits.foldl (fun acc c => acc * 10 + (c.toNat - '0'.toNat)) 0 : Nat))

/-- Model of JS `a || b` for a looked-up string value (`undefined` and `""`
are falsy). -/
def jsOrStr (a : Option String) (b : String) : String :=
  match a with
  | some s => if s = "" then b else s
  | none => b

/-- Model of JS `n || b` for a `parseInt` result (`NaN` and `0` are falsy). -/
def jsOrNum (a : Option Int) (b : Int) : Int :=
  match a with
  | some n => if n = 0 then b else n
  | none => b

/-- The `STATE_MAP` table from `slurmService.ts`: scheduler short codes to canonical
states. -/
def STATE_MAP : List (String × String) :=
  [("PD", "PENDING"), ("R", "RUNNING"), ("S", "SUSPENDED"), ("CG", "COMPLETING"),
   ("CD", "COMPLETED"), ("CA", "CANCELLED"), ("F", "FAILED"), ("TO", "TIMEOUT"),
   ("NF", "NODE_FAIL"), ("PR", "PREEMPTED"), ("OOM", "OUT_OF_MEMORY"), ("BF", "BOOT_FAIL"),
   ("DL", "DEADLINE"), ("RQ", "REQUEUED"), ("RS", "RESIZING"), ("RV", "REVOKED"),
   ("SI", "SIGNALING"), ("SE", "SPECIAL_EXIT"), ("SO", "STAGE_OUT"), ("ST", "STOPPED")]

/-- Model of `code.split(/[^A-Z]/)[0]`: the maximal prefix of characters in `A`–`Z`
(the JS split at the first character outside `A`–`Z` yields exactly this
prefix as element 0). -/
def leadingUpperRun (code : String) : String :=
  String.mk (code.toList.takeWhile (fun c => 'A' ≤ c && c ≤ 'Z'))

/-- The claim's notion of the "leading alphabetic run" of a code: the maximal
prefix of alphabetic characters (upper or lower case). Stated from the
spec's words, for comparison with the source's `leadingUpperRun`. -/
def leadingAlphaRun (code : String) : String :=
  String.mk (code.toList.takeWhile (·.isAlpha))

/-- The `parseJobState` helper from `slurmService.ts`:
`STATE_MAP[code.split(/[^A-Z]/)[0]] || code`. -/
def parseJobState (code : String) : String :=
  jsOrStr (STATE_MAP.lookup (leadingUpperRun code)) code

theorem parseJobState_example_pd : parseJobState "PD (Dependency)" = "PENDING" := by decide

theorem parseJobState_example_cg : parseJobState "CG" = "COMPLETING" := by decide

/-- Lookup misses when the key is not among the keys of an association
list. -/
theorem lookup_eq_none_of_not_mem_keys (l : List (String × String)) (k : String)
    (h : k ∉ l.map Prod.fst) : l.lookup k = none := by
  induction l with
  | nil => rfl
  | cons p rest ih =>
    simp only [List.map_cons, List.mem_cons, not_or] at h
    simp only [List.lookup]
    have hne : (k == p.1) = false := by
      simp [h.1]
    simp [hne, ih h.2]

/-- C1, counterexample. The input `"Ra"` has leading *alphabetic* run
`"Ra"`, which is not a key of `STATE_MAP`, so the claim requires
`parseJobState "Ra" = "Ra"`; but the code splits at the first
non-*uppercase* character (the regex is `[^A-Z]`), looks up `"R"`, and
returns `"RUNNING"`. -/
theorem parseJobState_alpha_run_counterexample :
    leadingAlphaRun "Ra" = "Ra" ∧ "Ra" ∉ STATE_MAP.map Prod.fst ∧
      parseJobState "Ra" = "RUNNING" ∧ "RUNNING" ≠ "Ra" := by
  refine ⟨by decide, by decide, by decide, by decide⟩

/-- C1, amended: with "leading alphabetic run" corrected to "leading
uppercase (`A`–`Z`) run" — exactly what splitting at the first character
outside `A`–`Z` yields — `parseJobState` maps every code whose leading
uppercase run is a key of `STATE_MAP` to the mapped canonical value and
returns every other code unchanged; in particular
`parseJobState "PD (Dependency)" = "PENDING"` and
`parseJobState "CG" = "COMPLETING"`. -/
theorem parseJobState_spec :
    (∀ code k v, (k, v) ∈ STATE_MAP → leadingUpperRun code = k → parseJobState code = v) ∧
    (∀ code, leadingUpperRun code ∉ STATE_MAP.map Prod.fst → parseJobState code = code) ∧
    parseJobState "PD (Dependency)" = "PENDING" ∧ parseJobState "CG" = "COMPLETING" := by
  refine ⟨?_, ?_, by decide, by decide⟩
  · intro code k v hmem hrun
    unfold parseJobState
    rw [hrun]
    fin_cases hmem <;> rfl
  · intro code hnot
    unfold parseJobState
    rw [lookup_eq_none_of_not_mem_keys _ _ hnot]
    rfl

/-- Witness for `parseJobState_spec`: both implications applied at concrete
inputs. -/
theorem parseJobState_spec_witness :
    parseJobState "R (None)" = "RUNNING" ∧ parseJobState "XX" = "XX" :=
  ⟨parseJobState_spec.1 "R (None)" "R" "RUNNING" (by decide) (by decide),
   parseJobState_spec.2.1 "XX" (by decide)⟩

/-- The `SlurmJob` record (from `types.ts`), restricted to the fields the
queue-listing and accounting parsers populate. `nodes : Option Int` models
the JS number field, with `none` standing for `NaN`; `arrayJobId` and
`exitCode` are optional fields (`none` models JS `undefined`). -/
structure SlurmJob where
  jobId : String
  name : String
  partition : String
  state : String
  stateRaw : String
  timeUsed : String
  timeLimit : String
  nodes : Option Int
  nodelist : String
  startTime : String
  endTime : String
  arrayJobId : Option String := none
  exitCode : Option String := none
deriving Repr, DecidableEq

/-- Helper for concrete test jobs: a job with the given id and state and
empty presentational fields. -/
def mkJob (id st : String) : SlurmJob :=
  { jobId := id, name := "", partition := "", state := st, stateRaw := st,
    timeUsed := "", timeLimit := "", nodes := some 1, nodelist := "",
    startTime := "", endTime := "" }

/-- The per-line body of `getJobs` (`slurmService.ts` lines 117–126): split
at `|`, trim each referenced field with `''` fallback, normalize the state,
and `parseInt` the node count with `'0'` fallback for a missing or blank
field. -/
def parseQueueLine (line : String) : SlurmJob :=
  let f := jsSplit line '|'
  let g := fun i => jsTrim (f.getD i "")
  let nodesField := if g 6 = "" then "0" else g 6
  { jobId := g 0, name := g 1, partition := g 2,
    state := parseJobState (g 3), stateRaw := g 3,
    timeUsed := g 4, timeLimit := g 5,
    nodes := jsParseInt nodesField,
    nodelist := g 7, startTime := g 8, endTime := g 9 }

/-- The non-blank-line filter of `getJobs`: `l.trim()` is truthy. -/
def keepQueueLine (l : String) : Bool := jsTrim l != ""

/-- The parsing part of `getJobs` (`slurmService.ts` lines 115–132), as a
function of the captured stdout: empty stdout short-circuits to `[]`,
otherwise split into lines, drop blank lines, parse each line, apply the
optional client-side name filter (`nameTest` abstracts
`new RegExp(filter.name, 'i').test`), and truncate to
`maxJobsDisplayed`. -/
def parseQueueListing (stdout : String) (nameTest : Option (String → Bool))
    (maxJobsDisplayed : Nat) : List SlurmJob :=
  if stdout = "" then []
  else
    let jobs := ((jsSplit stdout '\n').filter keepQueueLine).map parseQueueLine
    let jobs :=
      match nameTest with
      | some t => jobs.filter (fun (j : SlurmJob) => t j.name)
      | none => jobs
    jobs.take maxJobsDisplayed

/-- The accounting row filter of `getJobAccounting` (`slurmService.ts` line
307): keep a line only if it has at least 10 `|`-separated fields and its
first field contains no `.` (sub-step rows are dropped). -/
def acctKeep (l : String) : Bool :=
  decide (10 ≤ (jsSplit l '|').length) && !strContainsChar ((jsSplit l '|').getD 0 "") '.'

/-- The per-line body of `getJobAccounting` (`slurmService.ts` lines
308–315): fields are taken raw (no trim, no `''` default — the `≥ 10`
guard makes fields 0–9 present; field 10 may be absent, which `exitCode`'s
`Option` records), and the node count is `parseInt(f[6], 10) || 0`. -/
def parseAcctLine (line : String) : SlurmJob :=
  let f := jsSplit line '|'
  let g := fun i => f.getD i ""
  { jobId := g 0, name := g 1, partition := g 2,
    state := parseJobState (g 3), stateRaw := g 3,
    timeUsed := g 4, timeLimit := g 5,
    nodes := some (jsOrNum (jsParseInt (g 6)) 0),
    nodelist := g 7, startTime := g 8, endTime := g 9,
    exitCode := f.get? 10 }

/-- The parsing part of `getJobAccounting` (`slurmService.ts` lines
306–316). -/
def parseAcctRows (stdout : String) : List SlurmJob :=
  ((jsSplit stdout '\n').filter acctKeep).map parseAcctLine

/-- A queue listing of 101 identical well-formed lines, newline-separated. -/
def bigListing : String :=
  String.mk (List.intercalate ['\n'] (List.replicate 101 "1|a|p|R|t|l|1|n|s|e".toList))

/-- C2, counterexample. `getJobs` truncates its parsed job list to the
configured `maxJobsDisplayed` (default 100, `slurmService.ts` line 132), so
a queue listing of 101 well-formed (non-blank) lines yields 100 jobs, not
101. -/
theorem parseQueueListing_truncation_counterexample :
    ((jsSplit bigListing '\n').filter keepQueueLine).length = 101 ∧
    (parseQueueListing bigListing none 100).length = 100 := by
  constructor <;> rfl

/-- C2, amended: with no filter, the queue-listing parse on every input and
every display limit returns exactly the parsed jobs of the well-formed
(non-blank) lines, in input order, truncated to the first
`maxJobsDisplayed` — so the jobs of the first `min N maxJobsDisplayed`
lines; in particular exactly the `N` parsed jobs in input order whenever
`N ≤ maxJobsDisplayed`. -/
theorem parseQueueListing_order (stdout : String) (maxJobsDisplayed : Nat) :
    parseQueueListing stdout none maxJobsDisplayed =
      (((jsSplit stdout '\n').filter keepQueueLine).map parseQueueLine).take
        maxJobsDisplayed := by
  unfold parseQueueListing
  by_cases hs : stdout = ""
  · subst hs
    have hnil : (jsSplit "" '\n').filter keepQueueLine = [] := rfl
    rw [if_pos rfl, hnil]
    simp
  · simp only [hs, if_false]

/-- C3, counterexample. Two failure modes of the claim as stated:
an accounting line with fewer than 10 fields is dropped by the row filter
(`slurmService.ts` line 307) and yields *zero* jobs, not one degraded Job;
and a queue-listing line whose node-count field is present but not numeric
yields `NaN` (modelled `none`), not `0`, because `parseInt(f[6]?.trim() ||
'0', 10)` only falls back for a missing or blank field. -/
theorem short_line_defaults_counterexample :
    parseAcctRows "12345|job" = [] ∧
    (parseQueueLine "12345|job|gpu|R|1:00|2:00|abc|node01|s|e").nodes = none := by
  constructor <;> rfl

/-- C3, amended: a *queue-listing* line with fewer fields than expected still
yields exactly one Job, with the missing trailing string fields defaulted to
`""` and the node count defaulted to `0` when its field is absent or blank
(a present non-numeric node field yields `NaN` instead). An *accounting*
line with fewer than 10 fields is dropped entirely (no Job is produced for
it); kept accounting rows coerce an unparsable node count to `0`. -/
theorem short_line_defaults :
    (∀ line, (jsSplit line '|').length ≤ 6 →
      (parseQueueLine line).nodes = some 0 ∧ (parseQueueLine line).nodelist = "" ∧
      (parseQueueLine line).startTime = "" ∧ (parseQueueLine line).endTime = "") ∧
    (∀ line, jsTrim ((jsSplit line '|').getD 6 "") = "" →
      (parseQueueLine line).nodes = some 0) ∧
    (∀ line, (jsSplit line '|').length < 10 → acctKeep line = false) ∧
    (∀ line, jsParseInt ((jsSplit line '|').getD 6 "") = none →
      (parseAcctLine line).nodes = some 0) := by
  refine ⟨?_, ?_, ?_, ?_⟩
  · intro line h
    have h6 : (jsSplit line '|').getD 6 "" = "" :=
      List.getD_eq_default _ _ (le_trans h (by norm_num))
    have h7 : (jsSplit line '|').getD 7 "" = "" :=
      List.getD_eq_default _ _ (le_trans h (by norm_num))
    have h8 : (jsSplit line '|').getD 8 "" = "" :=
      List.getD_eq_default _ _ (le_trans h (by norm_num))
    have h9 : (jsSplit line '|').getD 9 "" = "" :=
      List.getD_eq_default _ _ (le_trans h (by norm_num))
    unfold parseQueueLine
    simp only [h6, h7, h8, h9]
    refine ⟨rfl, rfl, rfl, rfl⟩
  · intro line h
    unfold parseQueueLine
    simp only [h]
    rfl
  · intro line h
    unfold acctKeep
    simp [Nat.not_le.mpr h]
  · intro line h
    unfold parseAcctLine
    simp only [h]
    rfl

/-- Witness for `short_line_defaults`: the four conjuncts applied to
concrete short or malformed lines. -/
theorem short_line_defaults_witness :
    ((parseQueueLine "12345|job").nodes = some 0 ∧
      (parseQueueLine "12345|job").nodelist = "" ∧
      (parseQueueLine "12345|job").startTime = "" ∧
      (parseQueueLine "12345|job").endTime = "") ∧
    (parseQueueLine "1|n|p|R|t|l| |nl").nodes = some 0 ∧
    acctKeep "12345|job" = false ∧
    (parseAcctLine "1|n|p|R|t|l|abc|nl|s|e|0:0").nodes = some 0 :=
  ⟨short_line_defaults.1 "12345|job" (by decide),
   short_line_defaults.2.1 "1|n|p|R|t|l| |nl" (by decide),
   short_line_defaults.2.2.1 "12345|job" (by decide),
   short_line_defaults.2.2.2 "1|n|p|R|t|l|abc|nl|s|e|0:0" (by decide)⟩

/-! ## JS `Map` objects as insertion-ordered association lists -/

/-- JS `Map.prototype.get`: first entry with the given key (keys are unique
in a real `Map`; the operations below preserve that). -/
def mapGet {β : Type} (m : List (String × β)) (k : String) : Option β :=
  match m with
  | [] => none
  | (k', v) :: rest => if k' = k then some v else mapGet rest k

/-- JS `Map.prototype.set`: overwrite in place, or append a new entry. -/
def mapSet {β : Type} (m : List (String × β)) (k : String) (v : β) : List (String × β) :=
  match m with
  | [] => [(k, v)]
  | (k', v') :: rest => if k' = k then (k', v) :: rest else (k', v') :: mapSet rest k v

/-- The counting pattern `m.set(k, (m.get(k) || 0) + 1)` of
`getJobCounts`. -/
def jsMapIncr (m : List (String × Nat)) (k : String) : List (String × Nat) :=
  match m with
  | [] => [(k, 1)]
  | (k', c) :: rest => if k' = k then (k', c + 1) :: rest else (k', c) :: jsMapIncr rest k

/-- The `SlurmJobsProvider.getJobCounts` method: reduce the job list into a `Map` from
state to count (insertion order = order of first occurrence of each
state). -/
def getJobCounts (jobs : List SlurmJob) : List (String × Nat) :=
  jobs.foldl (fun m j => jsMapIncr m j.state) []

/-- Number of jobs of the list in the given state (the claim's per-state
count). -/
def countState (jobs : List SlurmJob) (s : String) : Nat :=
  (jobs.filter (fun j => j.state == s)).length

/-- The fixed category order of `getCategoryItems`. -/
def categoryOrder : List String :=
  ["RUNNING", "PENDING", "COMPLETING", "COMPLETED", "FAILED", "CANCELLED", "TIMEOUT"]

/-- Number of jobs whose state is outside the fixed category order (the
claim's OTHER count). -/
def countOther (jobs : List SlurmJob) : Nat :=
  (jobs.filter (fun j => !(categoryOrder.contains j.state))).length

/-- Truthiness of `counts.get(s)` in JS (`undefined` and `0` are falsy). -/
def jsTruthyCount (o : Option Nat) : Bool :=
  match o with
  | none => false
  | some 0 => false
  | some (_ + 1) => true

/-- The OTHER-bucket computation of `getCategoryItems`:
`Array.from(counts.entries()).filter(([s]) => !order.includes(s)).reduce((sum, [, c]) => sum + c, 0)`. -/
def otherSum (m : List (String × Nat)) : Nat :=
  (m.filter (fun e => !(categoryOrder.contains e.1))).foldl (fun acc e => acc + e.2) 0

/-- The `SlurmJobsProvider.getCategoryItems` method, with a `CategoryTreeItem`
modelled as its `(state, count)` pair: non-empty categories of the fixed
order, then an OTHER bucket when its count is positive. -/
def getCategoryItems (jobs : List SlurmJob) : List (String × Nat) :=
  let counts := getJobCounts jobs
  let items := (categoryOrder.filter (fun s => jsTruthyCount (mapGet counts s))).map
    (fun s => (s, (mapGet counts s).getD 0))
  let otherCount := otherSum counts
  if otherCount > 0 then items ++ [("OTHER", otherCount)] else items

theorem countState_cons (j : SlurmJob) (rest : List SlurmJob) (s : String) :
    countState (j :: rest) s = countState rest s + (if j.state = s then 1 else 0) := by
  by_cases h : j.state = s <;> simp [countState, List.filter_cons, h]

theorem mapGet_jsMapIncr (m : List (String × Nat)) (k s : String) :
    mapGet (jsMapIncr m k) s =
      if s = k then some ((mapGet m s).getD 0 + 1) else mapGet m s := by
  induction m with
  | nil =>
    by_cases h : s = k
    · subst h; simp [jsMapIncr, mapGet]
    · simp [jsMapIncr, mapGet, h, Ne.symm h]
  | cons p rest ih =>
    obtain ⟨k', c⟩ := p
    by_cases h1 : k' = k
    · subst h1
      by_cases h2 : k' = s
      · subst h2; simp [jsMapIncr, mapGet]
      · simp [jsMapIncr, mapGet, h2, Ne.symm h2]
    · by_cases h2 : k' = s
      · subst h2; simp [jsMapIncr, mapGet, h1, Ne.symm h1]
      · simp [jsMapIncr, mapGet, h1, h2, ih]

theorem mapGet_fold_counts (jobs : List SlurmJob) :
    ∀ (m : List (String × Nat)) (s : String),
      mapGet (jobs.foldl (fun acc j => jsMapIncr acc j.state) m) s =
        if countState jobs s = 0 then mapGet m s
        else some ((mapGet m s).getD 0 + countState jobs s) := by
  induction jobs with
  | nil => intro m s; simp [countState]
  | cons j rest ih =>
    intro m s
    simp only [List.foldl_cons]
    rw [ih, mapGet_jsMapIncr, countState_cons]
    by_cases h : s = j.state
    · have hj : (if j.state = s then 1 else 0) = 1 := if_pos h.symm
      simp only [if_pos h, hj]
      by_cases hc : countState rest s = 0 <;> simp [hc] <;> omega
    · have hj : (if j.state = s then 1 else 0) = 0 := if_neg (fun hh => h hh.symm)
      simp only [if_neg h, hj, Nat.add_zero]

/-- Lookup on the job-count map is exactly the per-state job count. -/
theorem mapGet_getJobCounts (jobs : List SlurmJob) (s : String) :
    mapGet (getJobCounts jobs) s =
      if countState jobs s = 0 then none else some (countState jobs s) := by
  have := mapGet_fold_counts jobs [] s
  simpa [getJobCounts, mapGet] using this

theorem foldl_add_snd (l : List (String × Nat)) :
    ∀ n : Nat, l.foldl (fun acc e => acc + e.2) n = n + (l.map Prod.snd).sum := by
  induction l with
  | nil => simp
  | cons e rest ih => intro n; simp [ih, Nat.add_assoc]

theorem otherSum_eq (m : List (String × Nat)) :
    otherSum m = ((m.filter (fun e => !(categoryOrder.contains e.1))).map Prod.snd).sum := by
  simp [otherSum, foldl_add_snd]

theorem otherSum_cons (k' : String) (c : Nat) (m : List (String × Nat)) :
    otherSum ((k', c) :: m) = (if k' ∈ categoryOrder then 0 else c) + otherSum m := by
  by_cases h : k' ∈ categoryOrder <;> simp [otherSum_eq, List.filter_cons, h]

theorem otherSum_incr (m : List (String × Nat)) (k : String) :
    otherSum (jsMapIncr m k) =
      otherSum m + (if k ∈ categoryOrder then 0 else 1) := by
  induction m with
  | nil =>
    by_cases h : k ∈ categoryOrder <;> simp [jsMapIncr, otherSum_eq, List.filter_cons, h]
  | cons p rest ih =>
    obtain ⟨k', c⟩ := p
    by_cases h1 : k' = k
    · subst h1
      have hstep : jsMapIncr ((k', c) :: rest) k' = (k', c + 1) :: rest := by
        simp [jsMapIncr]
      rw [hstep, otherSum_cons, otherSum_cons]
      by_cases h : k' ∈ categoryOrder <;> simp [h] <;> omega
    · simp only [jsMapIncr, if_neg h1]
      rw [otherSum_cons, otherSum_cons, ih]
      omega

theorem countOther_cons (j : SlurmJob) (rest : List SlurmJob) :
    countOther (j :: rest) = countOther rest + (if j.state ∈ categoryOrder then 0 else 1) := by
  by_cases h : j.state ∈ categoryOrder <;> simp [countOther, List.filter_cons, h]

theorem otherSum_fold (jobs : List SlurmJob) :
    ∀ (m : List (String × Nat)),
      otherSum (jobs.foldl (fun acc j => jsMapIncr acc j.state) m) =
        otherSum m + countOther jobs := by
  induction jobs with
  | nil => intro m; simp [countOther]
  | cons j rest ih =>
    intro m
    simp only [List.foldl_cons]
    rw [ih, otherSum_incr, countOther_cons]
    omega

/-- The OTHER-bucket sum of the job-count map counts exactly the jobs in states
outside the fixed category order. -/
theorem otherSum_getJobCounts (jobs : List SlurmJob) :
    otherSum (getJobCounts jobs) = countOther jobs := by
  have := otherSum_fold jobs []
  simpa [getJobCounts, otherSum] using this

/-- C4: the category items are exactly the non-empty categories of the
fixed order `RUNNING, PENDING, COMPLETING, COMPLETED, FAILED, CANCELLED,
TIMEOUT`, each carrying the exact per-state job count, followed by an OTHER
bucket counting all jobs in any other state (omitted when empty); and for
jobs in states RUNNING×2, PENDING×1, COMPLETED×1 the items are exactly
RUNNING=2, PENDING=1, COMPLETED=1. -/
theorem getCategoryItems_spec :
    (∀ jobs : List SlurmJob,
      getCategoryItems jobs =
        (categoryOrder.filter (fun s => decide (0 < countState jobs s))).map
          (fun s => (s, countState jobs s))
        ++ (if 0 < countOther jobs then [("OTHER", countOther jobs)] else [])) ∧
    getCategoryItems
        [mkJob "1" "RUNNING", mkJob "2" "PENDING", mkJob "3" "RUNNING", mkJob "4" "COMPLETED"] =
      [("RUNNING", 2), ("PENDING", 1), ("COMPLETED", 1)] := by
  constructor
  · intro jobs
    unfold getCategoryItems
    have hfun : (fun s => jsTruthyCount (mapGet (getJobCounts jobs) s)) =
        (fun s => decide (0 < countState jobs s)) := by
      funext s
      rw [mapGet_getJobCounts]
      by_cases h : countState jobs s = 0
      · simp [h, jsTruthyCount]
      · cases hc : countState jobs s with
        | zero => exact absurd hc h
        | succ n => simp [h, jsTruthyCount]
    have hval : (fun s => (s, (mapGet (getJobCounts jobs) s).getD 0)) =
        (fun s => (s, countState jobs s)) := by
      funext s
      rw [mapGet_getJobCounts]
      by_cases h : countState jobs s = 0 <;> simp [h]
    simp only [hfun, hval, otherSum_getJobCounts]
    by_cases h : 0 < countOther jobs
    · simp [h]
    · simp [h, Nat.not_lt.mp h]
  · rfl

/-! ## Array-job clustering (`SlurmJobsProvider.getJobItems`) -/

/-- The array id used by `getJobItems`:
`job.jobId.includes('_') ? job.jobId.split('_')[0] : job.arrayJobId`, with
JS truthiness applied afterwards (`if (arrayId)`), so an empty-string id is
no array id. -/
def effArrayId (j : SlurmJob) : Option String :=
  let raw : Option String :=
    if strContainsChar j.jobId '_' then some ((jsSplit j.jobId '_').getD 0 "")
    else j.arrayJobId
  match raw with
  | some s => if s = "" then none else some s
  | none => none

/-- A produced tree item: a plain job row, or a collapsible array parent
(the parent's label job is `{...tasks[0], arrayJobId: id}` as in the
source) carrying its task list. -/
inductive JobItem where
  | job (j : SlurmJob)
  | arrayParent (parent : SlurmJob) (tasks : List SlurmJob)
deriving Repr, DecidableEq

/-- The per-group item construction of `getJobItems`: a single-task group
stays a plain job row; a larger group becomes an array parent. (The empty
case never arises: groups always hold at least one task.) -/
def clusterItem (a : String) (ts : List SlurmJob) : JobItem :=
  match ts with
  | [t] => .job t
  | t :: rest => .arrayParent { t with arrayJobId := some a } (t :: rest)
  | [] => .job (mkJob "" "")

/-- The `groups.get(arrayId)!.push(job)` accumulation: append the job to
the existing group, or append a new group at the end. -/
def addGroup (gs : List (String × List SlurmJob)) (a : String) (j : SlurmJob) :
    List (String × List SlurmJob) :=
  match gs with
  | [] => [(a, [j])]
  | (k, ts) :: rest => if k = a then (k, ts ++ [j]) :: rest else (k, ts) :: addGroup rest a j

/-- One step of the grouping loop of `getJobItems`. -/
def groupStep (acc : List (String × List SlurmJob) × List SlurmJob) (job : SlurmJob) :
    List (String × List SlurmJob) × List SlurmJob :=
  match effArrayId job with
  | some a => (addGroup acc.1 a job, acc.2)
  | none => (acc.1, acc.2 ++ [job])

/-- The `SlurmJobsProvider.getJobItems` method (`slurmProvider` lines 165–190): with
array grouping off, one plain item per job in order; with it on, group by
array id, emit one item per group (in first-occurrence order of the ids),
then the non-array jobs. -/
def getJobItems (groupArrayJobs : Bool) (jobs : List SlurmJob) : List JobItem :=
  if !groupArrayJobs then jobs.map .job
  else
    let acc := jobs.foldl groupStep ([], [])
    acc.1.map (fun g => clusterItem g.1 g.2) ++ acc.2.map .job

/-- The distinct array ids of a job list, in order of first occurrence. -/
def arrayKeys (jobs : List SlurmJob) : List String :=
  jobs.foldl
    (fun ks j =>
      match effArrayId j with
      | some a => if a ∈ ks then ks else ks ++ [a]
      | none => ks) []

/-- The tasks of one array cluster, in fetch order. -/
def tasksOf (jobs : List SlurmJob) (a : String) : List SlurmJob :=
  jobs.filter (fun j => effArrayId j == some a)

/-- The jobs carrying no array id, in fetch order. -/
def nonArray (jobs : List SlurmJob) : List SlurmJob :=
  jobs.filter (fun j => (effArrayId j).isNone)

theorem arrayKeys_append (js : List SlurmJob) (j : SlurmJob) :
    arrayKeys (js ++ [j]) =
      match effArrayId j with
      | some a => if a ∈ arrayKeys js then arrayKeys js else arrayKeys js ++ [a]
      | none => arrayKeys js := by
  simp only [arrayKeys, List.foldl_append, List.foldl_cons, List.foldl_nil]

theorem tasksOf_append (js : List SlurmJob) (j : SlurmJob) (a : String) :
    tasksOf (js ++ [j]) a =
      tasksOf js a ++ (if effArrayId j == some a then [j] else []) := by
  simp only [tasksOf, List.filter_append, List.filter_cons, List.filter_nil]

theorem nonArray_append (js : List SlurmJob) (j : SlurmJob) :
    nonArray (js ++ [j]) = nonArray js ++ (if (effArrayId j).isNone then [j] else []) := by
  simp only [nonArray, List.filter_append, List.filter_cons, List.filter_nil]

theorem arrayKeys_nodup (jobs : List SlurmJob) : (arrayKeys jobs).Nodup := by
  induction jobs using List.reverseRecOn with
  | nil => exact List.nodup_nil
  | append_singleton js j ih =>
    rw [arrayKeys_append]
    cases h : effArrayId j with
    | none => exact ih
    | some a =>
      by_cases hmem : a ∈ arrayKeys js
      · simpa [hmem] using ih
      · simp [hmem, List.nodup_append, ih]

theorem mem_arrayKeys (jobs : List SlurmJob) (a : String) :
    a ∈ arrayKeys jobs ↔ ∃ j ∈ jobs, effArrayId j = some a := by
  induction jobs using List.reverseRecOn with
  | nil => simp [arrayKeys]
  | append_singleton js j ih =>
    have hkeys : a ∈ arrayKeys (js ++ [j]) ↔ (a ∈ arrayKeys js ∨ effArrayId j = some a) := by
      rw [arrayKeys_append]
      cases h : effArrayId j with
      | none => simp
      | some b =>
        by_cases hmem : b ∈ arrayKeys js
        · simp only [if_pos hmem, Option.some.injEq]
          constructor
          · exact Or.inl
          · rintro (hh | hh)
            · exact hh
            · exact hh ▸ hmem
        · simp only [if_neg hmem, List.mem_append, List.mem_singleton, Option.some.injEq]
          constructor
          · rintro (hh | hh)
            · exact Or.inl hh
            · exact Or.inr hh.symm
          · rintro (hh | hh)
            · exact Or.inl hh
            · exact Or.inr hh.symm
    rw [hkeys]
    constructor
    · rintro (h | h)
      · obtain ⟨x, hx, hpx⟩ := ih.mp h
        exact ⟨x, List.mem_append_left _ hx, hpx⟩
      · exact ⟨j, List.mem_append_right _ (by simp), h⟩
    · rintro ⟨x, hx, hpx⟩
      rcases List.mem_append.mp hx with hx' | hx'
      · exact Or.inl (ih.mpr ⟨x, hx', hpx⟩)
      · have hxj : x = j := by simpa using hx'
        exact Or.inr (hxj ▸ hpx)

theorem addGroup_not_mem (gs : List (String × List SlurmJob)) (a : String) (j : SlurmJob)
    (h : a ∉ gs.map Prod.fst) : addGroup gs a j = gs ++ [(a, [j])] := by
  induction gs with
  | nil => rfl
  | cons p rest ih =>
    obtain ⟨k, ts⟩ := p
    simp only [List.map_cons, List.mem_cons, not_or] at h
    simp only [addGroup, if_neg (Ne.symm h.1), List.cons_append, ih h.2]

theorem addGroup_mem_map (keys : List String) (f : String → List SlurmJob) (a : String)
    (j : SlurmJob) (hnd : keys.Nodup) (hmem : a ∈ keys) :
    addGroup (keys.map (fun k => (k, f k))) a j =
      keys.map (fun k => (k, if k = a then f k ++ [j] else f k)) := by
  induction keys with
  | nil => exact absurd hmem (List.not_mem_nil a)
  | cons k ks ih =>
    have hnd' := hnd.of_cons
    have hknotin : k ∉ ks := (List.nodup_cons.mp hnd).1
    by_cases hk : k = a
    · subst hk
      have hcongr : ∀ k' ∈ ks,
          ((k', if k' = k then f k' ++ [j] else f k') : String × List SlurmJob) =
            (k', f k') := by
        intro k' hk'
        have hne : k' ≠ k := fun hh => hknotin (hh ▸ hk')
        simp [hne]
      have hstep : addGroup ((k, f k) :: List.map (fun k => (k, f k)) ks) k j =
          (k, f k ++ [j]) :: List.map (fun k => (k, f k)) ks := by
        simp [addGroup]
      rw [List.map_cons, List.map_cons, hstep, if_pos rfl, List.map_congr_left hcongr]
    · have hmem' : a ∈ ks := by
        rcases List.mem_cons.mp hmem with h | h
        · exact absurd h.symm hk
        · exact h
      rw [List.map_cons, List.map_cons]
      simp only [addGroup, if_neg hk, ih hnd' hmem']

/-- The grouping loop of `getJobItems`, characterized: the collected groups
are exactly the array ids in first-occurrence order, each paired with its
tasks in fetch order, and the regular list is exactly the non-array jobs in
fetch order. -/
theorem jobGroups_spec (jobs : List SlurmJob) :
    (jobs.foldl groupStep ([], [])).1 =
        (arrayKeys jobs).map (fun a => (a, tasksOf jobs a)) ∧
      (jobs.foldl groupStep ([], [])).2 = nonArray jobs := by
  induction jobs using List.reverseRecOn with
  | nil => exact ⟨rfl, rfl⟩
  | append_singleton js j ih =>
    rw [List.foldl_append, List.foldl_cons, List.foldl_nil]
    cases h : effArrayId j with
    | none =>
      simp only [groupStep, h]
      refine ⟨?_, ?_⟩
      · rw [ih.1, arrayKeys_append, h]
        refine List.map_congr_left ?_
        intro a _
        rw [tasksOf_append, h]
        simp
      · rw [ih.2, nonArray_append, h]
        rfl
    | some a =>
      simp only [groupStep, h]
      refine ⟨?_, ?_⟩
      · rw [ih.1, arrayKeys_append, h]
        show addGroup (List.map (fun a => (a, tasksOf js a)) (arrayKeys js)) a j =
          List.map (fun a => (a, tasksOf (js ++ [j]) a))
            (if a ∈ arrayKeys js then arrayKeys js else arrayKeys js ++ [a])
        by_cases hmem : a ∈ arrayKeys js
        · rw [if_pos hmem,
            addGroup_mem_map (arrayKeys js) (tasksOf js) a j (arrayKeys_nodup js) hmem]
          refine List.map_congr_left ?_
          intro k _
          rw [tasksOf_append, h]
          by_cases hk : k = a
          · subst hk; simp
          · have hak : ¬a = k := fun hh => hk hh.symm
            simp [hk, hak]
        · rw [if_neg hmem]
          have hfst : a ∉ ((arrayKeys js).map (fun k => (k, tasksOf js k))).map Prod.fst := by
            simpa [List.map_map, Function.comp] using hmem
          rw [addGroup_not_mem _ _ _ hfst, List.map_append]
          congr 1
          · refine List.map_congr_left ?_
            intro k hk
            have hka : k ≠ a := fun hh => hmem (hh ▸ hk)
            have hak : ¬a = k := fun hh => hka hh.symm
            rw [tasksOf_append, h]
            simp [hak]
          · have hempty : tasksOf js a = [] := by
              unfold tasksOf
              rw [List.filter_eq_nil_iff]
              intro x hx hpx
              exact hmem ((mem_arrayKeys js a).mpr ⟨x, hx, by simpa using hpx⟩)
            rw [List.map_singleton, tasksOf_append, h, hempty]
            simp
      · rw [ih.2, nonArray_append, h]
        simp

/-- Characterization of `getJobItems` with array grouping on: cluster items for the array ids
(first-occurrence order), then the non-array jobs. -/
theorem getJobItems_grouped (jobs : List SlurmJob) :
    getJobItems true jobs =
      (arrayKeys jobs).map (fun a => clusterItem a (tasksOf jobs a))
        ++ (nonArray jobs).map JobItem.job := by
  unfold getJobItems
  rw [if_neg (by simp)]
  show (jobs.foldl groupStep ([], [])).1.map (fun g => clusterItem g.1 g.2)
      ++ (jobs.foldl groupStep ([], [])).2.map JobItem.job = _
  rw [(jobGroups_spec jobs).1, (jobGroups_spec jobs).2, List.map_map]
  rfl

/-- Whether an item is the array-parent item of cluster `a`. -/
def isClusterOf (a : String) : JobItem → Bool
  | .arrayParent p _ => p.arrayJobId == some a
  | .job _ => false

theorem mem_tasksOf (jobs : List SlurmJob) (a : String) (j : SlurmJob)
    (h : j ∈ tasksOf jobs a) : j ∈ jobs ∧ effArrayId j = some a := by
  have := List.mem_filter.mp h
  exact ⟨this.1, by simpa using this.2⟩

theorem tasksOf_ne_nil (jobs : List SlurmJob) (a : String) (h : a ∈ arrayKeys jobs) :
    tasksOf jobs a ≠ [] := by
  intro hempty
  obtain ⟨x, hx, hpx⟩ := (mem_arrayKeys jobs a).mp h
  have hmem : x ∈ tasksOf jobs a := List.mem_filter.mpr ⟨hx, by simp [hpx]⟩
  rw [hempty] at hmem
  cases hmem

theorem filter_beq_of_nodup (l : List String) (a : String) (hnd : l.Nodup) (ha : a ∈ l) :
    l.filter (· == a) = [a] := by
  induction l with
  | nil => cases ha
  | cons x xs ih =>
    rcases List.mem_cons.mp ha with h | h
    · subst h
      have hx : a ∉ xs := (List.nodup_cons.mp hnd).1
      have hrest : xs.filter (· == a) = [] := by
        rw [List.filter_eq_nil_iff]
        intro b hb hbeq
        exact hx ((by simpa using hbeq : b = a) ▸ hb)
      simp [List.filter_cons, hrest]
    · have hxa : (x == a) = false := by
        have : x ≠ a := fun hh => (List.nodup_cons.mp hnd).1 (hh ▸ h)
        simpa using this
      simp [List.filter_cons, hxa, ih (List.nodup_cons.mp hnd).2 h]

theorem clusterItem_pair (a : String) (t t' : SlurmJob) (rest : List SlurmJob) :
    clusterItem a (t :: t' :: rest) =
      .arrayParent { t with arrayJobId := some a } (t :: t' :: rest) := rfl

/-- C5: with array grouping on, every array id with at least two tasks
yields exactly one parent item whose child list is exactly those tasks (and
none of those tasks appears as a standalone item); an array id with exactly
one task yields that job as a regular standalone item and no parent; and
every job with no array id appears as a standalone item. The claim's
concrete instance: `12345_1..12345_3` plus unrelated `99999` yields one
parent with the 3 tasks plus one standalone job. -/
theorem getJobItems_array_clustering :
    (∀ (jobs : List SlurmJob) (a : String), 2 ≤ (tasksOf jobs a).length →
      (getJobItems true jobs).filter (isClusterOf a) = [clusterItem a (tasksOf jobs a)] ∧
      ∀ j ∈ tasksOf jobs a, JobItem.job j ∉ getJobItems true jobs) ∧
    (∀ (jobs : List SlurmJob) (a : String) (t : SlurmJob), tasksOf jobs a = [t] →
      JobItem.job t ∈ getJobItems true jobs ∧
      (getJobItems true jobs).filter (isClusterOf a) = []) ∧
    (∀ (jobs : List SlurmJob) (j : SlurmJob), j ∈ jobs → effArrayId j = none →
      JobItem.job j ∈ getJobItems true jobs) ∧
    getJobItems true
        [mkJob "12345_1" "RUNNING", mkJob "12345_2" "RUNNING",
         mkJob "12345_3" "PENDING", mkJob "99999" "RUNNING"] =
      [JobItem.arrayParent { mkJob "12345_1" "RUNNING" with arrayJobId := some "12345" }
          [mkJob "12345_1" "RUNNING", mkJob "12345_2" "RUNNING", mkJob "12345_3" "PENDING"],
       JobItem.job (mkJob "99999" "RUNNING")] := by
  have hreg : ∀ (jobs : List SlurmJob) (a : String) (x : JobItem),
      x ∈ (nonArray jobs).map JobItem.job → isClusterOf a x = false := by
    intro jobs a x hx
    obtain ⟨j', _, rfl⟩ := List.mem_map.mp hx
    rfl
  refine ⟨?_, ?_, ?_, ?_⟩
  · intro jobs a hlen
    constructor
    · rw [getJobItems_grouped, List.filter_append]
      have h2 : (List.map JobItem.job (nonArray jobs)).filter (isClusterOf a) = [] := by
        rw [List.filter_eq_nil_iff]
        intro x hx
        simp [hreg jobs a x hx]
      have hamem : a ∈ arrayKeys jobs := by
        rcases hts : tasksOf jobs a with _ | ⟨t, rest⟩
        · rw [hts] at hlen; simp at hlen
        · have : t ∈ tasksOf jobs a := by rw [hts]; simp
          exact (mem_arrayKeys jobs a).mpr ⟨t, (mem_tasksOf jobs a t this).1,
            (mem_tasksOf jobs a t this).2⟩
      have h1 : (List.map (fun k => clusterItem k (tasksOf jobs k)) (arrayKeys jobs)).filter
          (isClusterOf a) = [clusterItem a (tasksOf jobs a)] := by
        rw [List.filter_map]
        have hpt : ∀ k ∈ arrayKeys jobs,
            (isClusterOf a ∘ fun k => clusterItem k (tasksOf jobs k)) k = (k == a) := by
          intro k hk
          by_cases hka : k = a
          · subst hka
            rcases hts : tasksOf jobs k with _ | ⟨t, rest⟩
            · rw [hts] at hlen; simp at hlen
            · rcases rest with _ | ⟨t', rest'⟩
              · rw [hts] at hlen; simp at hlen
              · simp [Function.comp, hts, clusterItem_pair, isClusterOf]
          · rcases hts : tasksOf jobs k with _ | ⟨t, rest⟩
            · exact absurd hts (tasksOf_ne_nil jobs k hk)
            · rcases rest with _ | ⟨t', rest'⟩
              · simp [Function.comp, hts, clusterItem, isClusterOf, hka]
              · simp [Function.comp, hts, clusterItem_pair, isClusterOf, hka]
        rw [List.filter_congr hpt,
          filter_beq_of_nodup (arrayKeys jobs) a (arrayKeys_nodup jobs) hamem]
        rfl
      rw [h1, h2, List.append_nil]
    · intro j hj hmem
      have hja : effArrayId j = some a := (mem_tasksOf jobs a j hj).2
      rw [getJobItems_grouped] at hmem
      rcases List.mem_append.mp hmem with hin | hin
      · obtain ⟨k, hk, heq⟩ := List.mem_map.mp hin
        rcases hts : tasksOf jobs k with _ | ⟨t, rest⟩
        · exact absurd hts (tasksOf_ne_nil jobs k hk)
        · rcases rest with _ | ⟨t', rest'⟩
          · rw [hts] at heq
            have htj : t = j := by simpa [clusterItem] using heq
            have htk : t ∈ tasksOf jobs k := by rw [hts]; simp
            have : effArrayId j = some k := htj ▸ (mem_tasksOf jobs k t htk).2
            have hka : k = a := by
              rw [hja] at this
              exact (Option.some.inj this).symm
            subst hka
            rw [hts] at hlen
            simp at hlen
          · rw [hts, clusterItem_pair] at heq
            cases heq
      · obtain ⟨j', hj', heq⟩ := List.mem_map.mp hin
        have : j' = j := by simpa using heq
        subst this
        have := List.mem_filter.mp hj'
        rw [hja] at this
        simp at this
  · intro jobs a t hsingle
    have hta : t ∈ tasksOf jobs a := by rw [hsingle]; simp
    have hamem : a ∈ arrayKeys jobs :=
      (mem_arrayKeys jobs a).mpr ⟨t, (mem_tasksOf jobs a t hta).1, (mem_tasksOf jobs a t hta).2⟩
    constructor
    · rw [getJobItems_grouped]
      refine List.mem_append_left _ (List.mem_map.mpr ⟨a, hamem, ?_⟩)
      rw [hsingle]
      rfl
    · rw [getJobItems_grouped, List.filter_eq_nil_iff]
      intro x hx
      rcases List.mem_append.mp hx with hin | hin
      · obtain ⟨k, hk, rfl⟩ := List.mem_map.mp hin
        by_cases hka : k = a
        · subst hka
          rw [hsingle]
          simp [clusterItem, isClusterOf]
        · rcases hts : tasksOf jobs k with _ | ⟨t1, rest⟩
          · exact absurd hts (tasksOf_ne_nil jobs k hk)
          · rcases rest with _ | ⟨t2, rest'⟩
            · simp [hts, clusterItem, isClusterOf]
            · simp [hts, clusterItem_pair, isClusterOf, hka]
      · simp [hreg jobs a x hin]
  · intro jobs j hj heff
    rw [getJobItems_grouped]
    exact List.mem_append_right _
      (List.mem_map.mpr ⟨j, List.mem_filter.mpr ⟨hj, by simp [heff]⟩, rfl⟩)
  · rfl

/-- Witness for `getJobItems_array_clustering`: the three universal parts
applied to a concrete job list (`7_1`, `7_2` cluster; `8_1` alone; `9`
without array id). -/
theorem getJobItems_array_clustering_witness :
    ((getJobItems true [mkJob "7_1" "RUNNING", mkJob "7_2" "PENDING", mkJob "8_1" "RUNNING",
        mkJob "9" "RUNNING"]).filter (isClusterOf "7") =
      [clusterItem "7" (tasksOf [mkJob "7_1" "RUNNING", mkJob "7_2" "PENDING",
          mkJob "8_1" "RUNNING", mkJob "9" "RUNNING"] "7")] ∧
      ∀ j ∈ tasksOf [mkJob "7_1" "RUNNING", mkJob "7_2" "PENDING", mkJob "8_1" "RUNNING",
          mkJob "9" "RUNNING"] "7",
        JobItem.job j ∉ getJobItems true [mkJob "7_1" "RUNNING", mkJob "7_2" "PENDING",
          mkJob "8_1" "RUNNING", mkJob "9" "RUNNING"]) ∧
    JobItem.job (mkJob "8_1" "RUNNING") ∈ getJobItems true [mkJob "7_1" "RUNNING",
      mkJob "7_2" "PENDING", mkJob "8_1" "RUNNING", mkJob "9" "RUNNING"] ∧
    JobItem.job (mkJob "9" "RUNNING") ∈ getJobItems true [mkJob "7_1" "RUNNING",
      mkJob "7_2" "PENDING", mkJob "8_1" "RUNNING", mkJob "9" "RUNNING"] :=
  ⟨getJobItems_array_clustering.1
      [mkJob "7_1" "RUNNING", mkJob "7_2" "PENDING", mkJob "8_1" "RUNNING", mkJob "9" "RUNNING"]
      "7" (by decide),
   (getJobItems_array_clustering.2.1
      [mkJob "7_1" "RUNNING", mkJob "7_2" "PENDING", mkJob "8_1" "RUNNING", mkJob "9" "RUNNING"]
      "8" (mkJob "8_1" "RUNNING") (by decide)).1,
   getJobItems_array_clustering.2.2.1
      [mkJob "7_1" "RUNNING", mkJob "7_2" "PENDING", mkJob "8_1" "RUNNING", mkJob "9" "RUNNING"]
      (mkJob "9" "RUNNING") (by decide) (by decide)⟩

/-- C6, counterexample. With array grouping on, array-derived items are
emitted before the non-array jobs: for the fetched list `[99999, 12345_1]`
(same state), the displayed flat list is `[12345_1, 99999]` — the original
fetch order is not preserved. -/
theorem getJobItems_order_counterexample :
    getJobItems true [mkJob "99999" "RUNNING", mkJob "12345_1" "RUNNING"] =
      [JobItem.job (mkJob "12345_1" "RUNNING"), JobItem.job (mkJob "99999" "RUNNING")] ∧
    mkJob "99999" "RUNNING" ≠ mkJob "12345_1" "RUNNING" := by
  constructor
  · rfl
  · decide

/-- C6, amended: with array grouping off, the displayed jobs — in the flat
list and within each state category — are exactly the fetched jobs in fetch
order; with array grouping on, the array-derived items (one per array id,
in order of first occurrence) precede the non-array jobs, fetch order being
preserved inside each of the two segments and inside every cluster's child
list (each cluster's children are the `tasksOf` filter of the fetched
list). -/
theorem getJobItems_order :
    (∀ jobs : List SlurmJob, getJobItems false jobs = jobs.map JobItem.job) ∧
    (∀ (jobs : List SlurmJob) (s : String),
      getJobItems false (jobs.filter (fun j => j.state == s)) =
        (jobs.filter (fun j => j.state == s)).map JobItem.job) ∧
    (∀ jobs : List SlurmJob,
      getJobItems true jobs =
        (arrayKeys jobs).map (fun a => clusterItem a (tasksOf jobs a))
          ++ (nonArray jobs).map JobItem.job) := by
  refine ⟨fun jobs => rfl, fun jobs s => rfl, getJobItems_grouped⟩

/-! ## Command results, detailed dumps, cancellation, provider refresh -/

/-- The captured result of one external command (`CommandResult` in
`types.ts`), as the parsing code consumes it. -/
structure CommandResult where
  success : Bool
  stdout : String
  stderr : String
deriving Repr, DecidableEq

/-- JS `s.includes(pat)` (substring containment), structurally. -/
def listIsInfix (pat : List Char) : List Char → Bool
  | [] => pat.isEmpty
  | c :: rest => pat.isPrefixOf (c :: rest) || listIsInfix pat rest

/-- JS `s.includes(pat)` on strings. -/
def strIncludes (s pat : String) : Bool := listIsInfix pat.toList s.toList

/-- Case-insensitive prefix match (the `'i'` flag of the field regexes of
`getJobDetails`). -/
def matchesCI : List Char → List Char → Bool
  | [], _ => true
  | _ :: _, [] => false
  | a :: ka, b :: tb => (a.toLower == b.toLower) && matchesCI ka tb

/-- First-match semantics of the bounded field regex
`KEY=([^\s]+)` with the `'i'` flag: the first case-insensitive occurrence
of `KEY=` followed by at least one non-whitespace character yields that
non-whitespace run. -/
def findKeyVal (key : List Char) : List Char → Option (List Char)
  | [] => none
  | c :: rest =>
    if matchesCI key (c :: rest) then
      let v := ((c :: rest).drop key.length).takeWhile (fun ch => !ch.isWhitespace)
      if v.isEmpty then findKeyVal key rest else some v
    else findKeyVal key rest

/-- The `get` helper of `getJobDetails`:
`o.match(new RegExp(`KEY=([^\s]+)`, 'i'))?.[1] || ''`. -/
def scGet (k : String) (text : String) : String :=
  match findKeyVal (k.toList ++ ['=']) text.toList with
  | none => ""
  | some v => String.mk v

/-- The detailed-dump record (`SlurmJobDetails`), restricted to the
identity fields extracted through the bounded `get` helper; the remaining
source fields are analogous `get`/`getSpaces` projections that no claim
references. -/
structure SlurmJobDetails where
  jobId : String
  name : String
  partition : String
  state : String
  stateRaw : String
  user : String
  account : String
  exitCode : String
  arrayJobId : String
  arrayTaskId : String
deriving Repr, DecidableEq

/-- The `getJobDetails` method (`slurmService.ts` lines 135–179): a failed command,
empty stdout, or an `Invalid job id` marker in the text yields the NotFound
result (`none`); otherwise the key=value dump is parsed into a details
record. -/
def getJobDetails (res : CommandResult) : Option SlurmJobDetails :=
  if !res.success || res.stdout == "" || strIncludes res.stdout "Invalid job id" then none
  else
    let o := res.stdout
    let stRaw := scGet "JobState" o
    some { jobId := scGet "JobId" o, name := scGet "JobName" o,
           partition := scGet "Partition" o,
           state := parseJobState stRaw, stateRaw := stRaw,
           user := (jsSplit (scGet "UserId" o) '(').getD 0 "",
           account := scGet "Account" o, exitCode := scGet "ExitCode" o,
           arrayJobId := scGet "ArrayJobId" o, arrayTaskId := scGet "ArrayTaskId" o }

/-- C7: any detailed-dump text containing the `Invalid job id` marker makes
`getJobDetails` return the NotFound result (`null`), whatever else the text
contains. -/
theorem getJobDetails_invalid_marker (res : CommandResult)
    (h : strIncludes res.stdout "Invalid job id" = true) : getJobDetails res = none := by
  unfold getJobDetails
  simp [h]

/-- Witness for `getJobDetails_invalid_marker` at the repository's own
`scancel`/`scontrol` fixture text, surrounded by other key=value content. -/
theorem getJobDetails_invalid_marker_witness :
    getJobDetails
      { success := true,
        stdout := "JobId=99999 slurm_load_jobs error: Invalid job id specified",
        stderr := "" } = none :=
  getJobDetails_invalid_marker
    { success := true,
      stdout := "JobId=99999 slurm_load_jobs error: Invalid job id specified",
      stderr := "" } (by decide)

/-- The `cancelJob` method (`slurmService.ts` lines 181–186): throw only when the
command failed *and* produced non-empty stderr; in every other case report
success. -/
def cancelJob (jobId : String) (res : CommandResult) : Except String Bool :=
  if !res.success && res.stderr != "" then
    .error ("Failed to cancel job " ++ jobId ++ ": " ++ res.stderr)
  else .ok true

/-- C10: `cancelJob` returns `true` when the command succeeds, and also
when it fails with empty stderr (a silent failure is reported as a
successful cancellation); it throws exactly when the command fails with
non-empty stderr. -/
theorem cancelJob_spec (jobId : String) (res : CommandResult) :
    (res.success = true → cancelJob jobId res = .ok true) ∧
    (res.success = false → res.stderr = "" → cancelJob jobId res = .ok true) ∧
    (res.success = false → res.stderr ≠ "" →
      cancelJob jobId res =
        .error ("Failed to cancel job " ++ jobId ++ ": " ++ res.stderr)) := by
  refine ⟨?_, ?_, ?_⟩
  · intro h; simp [cancelJob, h]
  · intro h hs; simp [cancelJob, h, hs]
  · intro h hs; simp [cancelJob, h, hs]

/-- Witness for `cancelJob_spec`: the silent-failure case at a concrete
failed result with empty stderr, and the throwing case at the repository's
`scancel` error fixture. -/
theorem cancelJob_spec_witness :
    cancelJob "99999" { success := false, stdout := "", stderr := "" } = .ok true ∧
    cancelJob "99999"
        { success := false, stdout := "",
          stderr := "scancel: error: Kill job error on job id 99999: Invalid job id specified" } =
      .error ("Failed to cancel job 99999: " ++
        "scancel: error: Kill job error on job id 99999: Invalid job id specified") :=
  ⟨(cancelJob_spec "99999" { success := false, stdout := "", stderr := "" }).2.1 rfl rfl,
   (cancelJob_spec "99999"
      { success := false, stdout := "",
        stderr := "scancel: error: Kill job error on job id 99999: Invalid job id specified" }).2.2
      rfl (by decide)⟩

/-- The mutable display state of `SlurmJobsProvider` that `refresh`
touches. -/
structure ProviderState where
  jobs : List SlurmJob
  lastError : Option String
  isLoading : Bool
deriving Repr

/-- The `SlurmJobsProvider.refresh` method (`slurmProvider` lines 120–133), as a state
transition on the fetch outcome: a successful fetch installs the fetched
list and clears the recorded error; a failed fetch records the failure
message and clears the list to empty. -/
def providerRefresh (s : ProviderState) (fetched : Except String (List SlurmJob)) :
    ProviderState :=
  match fetched with
  | .ok js => { jobs := js, lastError := none, isLoading := false }
  | .error m => { jobs := [], lastError := some m, isLoading := false }

/-- C8: after a refresh whose underlying fetch throws, the provider's job
list is empty and the error message is recorded in `lastError`; after a
successful refresh the recorded error is cleared. -/
theorem providerRefresh_spec (s : ProviderState) (msg : String) (js : List SlurmJob) :
    (providerRefresh s (.error msg)).jobs = [] ∧
    (providerRefresh s (.error msg)).lastError = some msg ∧
    (providerRefresh s (.ok js)).lastError = none := by
  exact ⟨rfl, rfl, rfl⟩

/-! ## The reconciler (`checkJobStateChanges` in the extension entry point) -/

/-- The notification switches of the extension configuration that
`checkJobStateChanges` consults. -/
structure NotifyConfig where
  enableNotifications : Bool
  notifyOnStart : Bool
  notifyOnComplete : Bool
  notifyOnFail : Bool
deriving Repr, DecidableEq

/-- A transition notification, identified by its constructor and the data
interpolated into the shown message. -/
inductive JobEvent where
  | started (jobId : String)
  | completed (jobId : String)
  | failed (jobId : String) (state : String)
deriving Repr, DecidableEq

/-- Model of `new Map(jobs.map(j => [j.jobId, j]))`: later duplicates overwrite
earlier ones, insertion order is first occurrence. -/
def jsJobMap (jobs : List SlurmJob) : List (String × SlurmJob) :=
  jobs.foldl (fun m j => mapSet m j.jobId j) []

/-- The first loop of `checkJobStateChanges`: a *started* notification for
every job of the new map that is RUNNING and was PENDING either in the
persistent side-table or in the old snapshot. -/
def startedEvents (cfg : NotifyConfig) (oldMap newMap : List (String × SlurmJob))
    (prevStates : List (String × String)) : List JobEvent :=
  newMap.filterMap (fun e =>
    if cfg.notifyOnStart && e.2.state == "RUNNING" &&
        (mapGet prevStates e.1 == some "PENDING" ||
         (mapGet oldMap e.1).map SlurmJob.state == some "PENDING")
    then some (JobEvent.started e.1) else none)

/-- The second loop of `checkJobStateChanges`: a *completed* notification
for every job of the old map that is absent from the new map and was last
seen RUNNING or COMPLETING. -/
def completedEvents (cfg : NotifyConfig) (oldMap newMap : List (String × SlurmJob)) :
    List JobEvent :=
  oldMap.filterMap (fun e =>
    if (mapGet newMap e.1).isNone && cfg.notifyOnComplete &&
        (e.2.state == "RUNNING" || e.2.state == "COMPLETING")
    then some (JobEvent.completed e.1) else none)

/-- One iteration of the third loop of `checkJobStateChanges`: a *failed*
notification when the job is in a terminal-failure state and its recorded
previous state exists (truthy) and differs, then the side-table entry is
overwritten with the current state. -/
def failStep (cfg : NotifyConfig) (acc : List JobEvent × List (String × String))
    (job : SlurmJob) : List JobEvent × List (String × String) :=
  (if cfg.notifyOnFail &&
        (job.state == "FAILED" || job.state == "TIMEOUT" ||
         job.state == "OUT_OF_MEMORY" || job.state == "NODE_FAIL") &&
        (match mapGet acc.2 job.jobId with
         | some p => p != "" && p != job.state
         | none => false)
    then acc.1 ++ [JobEvent.failed job.jobId job.state] else acc.1,
   mapSet acc.2 job.jobId job.state)

/-- The `checkJobStateChanges` reconciler from the extension entry point: with
notifications disabled nothing happens; otherwise the three loops run in
order (starts over the new map, completions over the old map, failures over
the raw new list, which also rewrites the persistent side-table). Returns
the emitted events and the updated side-table. -/
def checkJobStateChanges (cfg : NotifyConfig) (oldJobs newJobs : List SlurmJob)
    (prevStates : List (String × String)) :
    List JobEvent × List (String × String) :=
  if !cfg.enableNotifications then ([], prevStates)
  else
    let oldMap := jsJobMap oldJobs
    let newMap := jsJobMap newJobs
    let failAcc := newJobs.foldl (failStep cfg) ([], prevStates)
    (startedEvents cfg oldMap newMap prevStates ++ completedEvents cfg oldMap newMap
      ++ failAcc.1,
     failAcc.2)

theorem checkJobStateChanges_enabled (cfg : NotifyConfig) (oldJobs newJobs : List SlurmJob)
    (prevStates : List (String × String)) (h : cfg.enableNotifications = true) :
    checkJobStateChanges cfg oldJobs newJobs prevStates =
      (startedEvents cfg (jsJobMap oldJobs) (jsJobMap newJobs) prevStates
        ++ completedEvents cfg (jsJobMap oldJobs) (jsJobMap newJobs)
        ++ (newJobs.foldl (failStep cfg) ([], prevStates)).1,
       (newJobs.foldl (failStep cfg) ([], prevStates)).2) := by
  unfold checkJobStateChanges
  simp [h]

theorem mapGet_mapSet_self {β : Type} (m : List (String × β)) (k : String) (v : β) :
    mapGet (mapSet m k v) k = some v := by
  induction m with
  | nil => simp [mapSet, mapGet]
  | cons p rest ih =>
    obtain ⟨k', v'⟩ := p
    by_cases h : k' = k
    · subst h; simp [mapSet, mapGet]
    · simp [mapSet, mapGet, h, ih]

theorem mapGet_mapSet_ne {β : Type} (m : List (String × β)) (k' k : String) (v : β)
    (h : k' ≠ k) : mapGet (mapSet m k' v) k = mapGet m k := by
  induction m with
  | nil => simp [mapSet, mapGet, h]
  | cons p rest ih =>
    obtain ⟨k'', v''⟩ := p
    by_cases h2 : k'' = k'
    · subst h2; simp [mapSet, mapGet, h]
    · simp [mapSet, mapGet, h2, ih]

theorem mapSet_not_mem {β : Type} (m : List (String × β)) (k : String) (v : β)
    (h : k ∉ m.map Prod.fst) : mapSet m k v = m ++ [(k, v)] := by
  induction m with
  | nil => rfl
  | cons p rest ih =>
    obtain ⟨k', v'⟩ := p
    simp only [List.map_cons, List.mem_cons, not_or] at h
    simp only [mapSet, if_neg (Ne.symm h.1), List.cons_append, ih h.2]

theorem foldl_mapSet_eq (jobs : List SlurmJob) :
    ∀ m : List (String × SlurmJob), (jobs.map SlurmJob.jobId).Nodup →
      (∀ x ∈ jobs, x.jobId ∉ m.map Prod.fst) →
      jobs.foldl (fun m j => mapSet m j.jobId j) m =
        m ++ jobs.map (fun j => (j.jobId, j)) := by
  induction jobs with
  | nil => intro m _ _; simp
  | cons j rest ih =>
    intro m hnd hdisj
    simp only [List.foldl_cons]
    rw [mapSet_not_mem m j.jobId j (hdisj j (by simp))]
    rw [ih (m ++ [(j.jobId, j)]) (by simpa using (List.nodup_cons.mp (by simpa using hnd)).2) ?_]
    · simp
    · intro x hx
      simp only [List.map_append, List.mem_append, not_or]
      refine ⟨hdisj x (List.mem_cons_of_mem _ hx), ?_⟩
      have hne : x.jobId ≠ j.jobId := by
        intro hh
        have hj : j.jobId ∉ rest.map SlurmJob.jobId :=
          (List.nodup_cons.mp (by simpa using hnd)).1
        exact hj (hh ▸ List.mem_map.mpr ⟨x, hx, rfl⟩)
      simp [hne]

/-- Under distinct job ids, the JS map built from a snapshot is just the
association list of the snapshot in order. -/
theorem jsJobMap_eq_map (jobs : List SlurmJob) (h : (jobs.map SlurmJob.jobId).Nodup) :
    jsJobMap jobs = jobs.map (fun j => (j.jobId, j)) := by
  have := foldl_mapSet_eq jobs [] h (by simp)
  simpa [jsJobMap] using this

theorem mapGet_map_pack (jobs : List SlurmJob) (J : SlurmJob)
    (hnd : (jobs.map SlurmJob.jobId).Nodup) (hJ : J ∈ jobs) :
    mapGet (jobs.map (fun j => (j.jobId, j))) J.jobId = some J := by
  induction jobs with
  | nil => cases hJ
  | cons x rest ih =>
    rcases List.mem_cons.mp hJ with h | h
    · subst h; simp [mapGet]
    · have hne : x.jobId ≠ J.jobId := by
        intro hh
        have hx : x.jobId ∉ rest.map SlurmJob.jobId := (List.nodup_cons.mp (by simpa using hnd)).1
        exact hx (hh ▸ List.mem_map.mpr ⟨J, h, rfl⟩)
      simp only [List.map_cons, mapGet, if_neg hne]
      exact ih (List.nodup_cons.mp (by simpa using hnd)).2 h

theorem mapGet_jsJobMap_some (jobs : List SlurmJob) (J : SlurmJob)
    (hnd : (jobs.map SlurmJob.jobId).Nodup) (hJ : J ∈ jobs) :
    mapGet (jsJobMap jobs) J.jobId = some J := by
  rw [jsJobMap_eq_map jobs hnd]
  exact mapGet_map_pack jobs J hnd hJ

theorem mapGet_foldl_mapSet_not_mem {β : Type} (f : SlurmJob → β) (jobs : List SlurmJob)
    (k : String) (h : k ∉ jobs.map SlurmJob.jobId) :
    ∀ t : List (String × β),
      mapGet (jobs.foldl (fun tb j => mapSet tb j.jobId (f j)) t) k = mapGet t k := by
  induction jobs with
  | nil => intro t; rfl
  | cons j rest ih =>
    intro t
    simp only [List.map_cons, List.mem_cons, not_or] at h
    simp only [List.foldl_cons]
    rw [ih h.2, mapGet_mapSet_ne _ _ _ _ (fun hh => h.1 hh.symm)]

theorem mapGet_jsJobMap_none (jobs : List SlurmJob) (k : String)
    (h : k ∉ jobs.map SlurmJob.jobId) : mapGet (jsJobMap jobs) k = none := by
  have := mapGet_foldl_mapSet_not_mem (fun j => j) jobs k h []
  simpa [jsJobMap] using this

theorem failAcc_snd (cfg : NotifyConfig) (jobs : List SlurmJob) :
    ∀ (evs : List JobEvent) (t : List (String × String)),
      (jobs.foldl (failStep cfg) (evs, t)).2 =
        jobs.foldl (fun tb j => mapSet tb j.jobId j.state) t := by
  induction jobs with
  | nil => intro evs t; rfl
  | cons j rest ih =>
    intro evs t
    simp only [List.foldl_cons]
    exact ih _ _

theorem failStep_fst (cfg : NotifyConfig) (acc : List JobEvent × List (String × String))
    (j : SlurmJob) :
    (failStep cfg acc j).1 = acc.1 ∨
      (failStep cfg acc j).1 = acc.1 ++ [JobEvent.failed j.jobId j.state] := by
  unfold failStep
  split
  · exact Or.inr rfl
  · exact Or.inl rfl

theorem failAcc_events (cfg : NotifyConfig) (jobs : List SlurmJob) :
    ∀ (evs : List JobEvent) (t : List (String × String)) (e : JobEvent),
      e ∈ (jobs.foldl (failStep cfg) (evs, t)).1 →
        e ∈ evs ∨ ∃ id st, e = JobEvent.failed id st := by
  induction jobs with
  | nil => intro evs t e he; exact Or.inl he
  | cons j rest ih =>
    intro evs t e he
    simp only [List.foldl_cons] at he
    rcases ih (failStep cfg (evs, t) j).1 (failStep cfg (evs, t) j).2 e he with h | h
    · rcases failStep_fst cfg (evs, t) j with hf | hf
      · rw [hf] at h; exact Or.inl h
      · rw [hf] at h
        rcases List.mem_append.mp h with h' | h'
        · exact Or.inl h'
        · exact Or.inr ⟨j.jobId, j.state, by simpa using h'⟩
    · exact Or.inr h

theorem mem_startedEvents (cfg : NotifyConfig) (oldMap newMap : List (String × SlurmJob))
    (t : List (String × String)) (e : JobEvent) (h : e ∈ startedEvents cfg oldMap newMap t) :
    ∃ id, e = JobEvent.started id := by
  obtain ⟨a, _, ha⟩ := List.mem_filterMap.mp h
  split at ha
  · exact ⟨a.1, (Option.some.inj ha).symm⟩
  · cases ha

theorem mem_completedEvents (cfg : NotifyConfig) (oldMap newMap : List (String × SlurmJob))
    (e : JobEvent) (h : e ∈ completedEvents cfg oldMap newMap) :
    ∃ id, e = JobEvent.completed id := by
  obtain ⟨a, _, ha⟩ := List.mem_filterMap.mp h
  split at ha
  · exact ⟨a.1, (Option.some.inj ha).symm⟩
  · cases ha

theorem mapGet_statesFold (l : List SlurmJob) (J : SlurmJob)
    (hnd : (l.map SlurmJob.jobId).Nodup) (hJ : J ∈ l) :
    ∀ t : List (String × String),
      mapGet (l.foldl (fun tb j => mapSet tb j.jobId j.state) t) J.jobId = some J.state := by
  induction l with
  | nil => cases hJ
  | cons j rest ih =>
    intro t
    simp only [List.foldl_cons]
    rcases List.mem_cons.mp hJ with h | h
    · subst h
      rw [mapGet_foldl_mapSet_not_mem SlurmJob.state rest J.jobId
        (List.nodup_cons.mp (by simpa using hnd)).1 _]
      exact mapGet_mapSet_self t J.jobId J.state
    · exact ih (List.nodup_cons.mp (by simpa using hnd)).2 h _

/-- C9: reconciliation. (1) A job RUNNING or COMPLETING in the old snapshot
and absent from the new one produces a *completed* event. (2) A job PENDING
in the old snapshot and absent from the new one produces no completion
event. (3) A job PENDING then RUNNING produces a *started* event on that
refresh and none on the following refresh while it stays RUNNING — exactly
once across refreshes. -/
theorem reconciliation_spec :
    (∀ (cfg : NotifyConfig) (oldJobs newJobs : List SlurmJob)
        (t : List (String × String)) (J : SlurmJob),
      cfg.enableNotifications = true → cfg.notifyOnComplete = true →
      (oldJobs.map SlurmJob.jobId).Nodup →
      J ∈ oldJobs → (J.state = "RUNNING" ∨ J.state = "COMPLETING") →
      J.jobId ∉ newJobs.map SlurmJob.jobId →
      JobEvent.completed J.jobId ∈ (checkJobStateChanges cfg oldJobs newJobs t).1) ∧
    (∀ (cfg : NotifyConfig) (oldJobs newJobs : List SlurmJob)
        (t : List (String × String)) (J : SlurmJob),
      (oldJobs.map SlurmJob.jobId).Nodup →
      J ∈ oldJobs → J.state = "PENDING" →
      J.jobId ∉ newJobs.map SlurmJob.jobId →
      JobEvent.completed J.jobId ∉ (checkJobStateChanges cfg oldJobs newJobs t).1) ∧
    (∀ (cfg : NotifyConfig) (s0 s1 s2 : List SlurmJob) (t0 : List (String × String))
        (J0 J1 J2 : SlurmJob),
      cfg.enableNotifications = true → cfg.notifyOnStart = true →
      (s0.map SlurmJob.jobId).Nodup → (s1.map SlurmJob.jobId).Nodup →
      (s2.map SlurmJob.jobId).Nodup →
      J0 ∈ s0 → J0.state = "PENDING" →
      J1 ∈ s1 → J1.jobId = J0.jobId → J1.state = "RUNNING" →
      J2 ∈ s2 → J2.jobId = J0.jobId → J2.state = "RUNNING" →
      JobEvent.started J0.jobId ∈ (checkJobStateChanges cfg s0 s1 t0).1 ∧
      JobEvent.started J0.jobId ∉
        (checkJobStateChanges cfg s1 s2 (checkJobStateChanges cfg s0 s1 t0).2).1) := by
  refine ⟨?_, ?_, ?_⟩
  · intro cfg oldJobs newJobs t J hE hC hnd hJ hst hnotin
    rw [checkJobStateChanges_enabled _ _ _ _ hE]
    simp only [List.mem_append, or_assoc]
    refine Or.inr (Or.inl ?_)
    refine List.mem_filterMap.mpr ⟨(J.jobId, J), ?_, ?_⟩
    · rw [jsJobMap_eq_map oldJobs hnd]
      exact List.mem_map.mpr ⟨J, hJ, rfl⟩
    · have h1 := mapGet_jsJobMap_none newJobs J.jobId hnotin
      rcases hst with hs | hs <;> simp [h1, hC, hs]
  · intro cfg oldJobs newJobs t J hnd hJ hst hnotin hmem
    by_cases hE : cfg.enableNotifications = true
    · rw [checkJobStateChanges_enabled _ _ _ _ hE] at hmem
      simp only [List.mem_append, or_assoc] at hmem
      rcases hmem with h | h | h
      · obtain ⟨id, heq⟩ := mem_startedEvents _ _ _ _ _ h
        cases heq
      · obtain ⟨a, hamem, ha⟩ := List.mem_filterMap.mp h
        split at ha
        case _ hCond =>
          have haid : a.1 = J.jobId := by
            have := Option.some.inj ha
            simpa using this
          rw [jsJobMap_eq_map oldJobs hnd] at hamem
          obtain ⟨j', hj', hpack⟩ := List.mem_map.mp hamem
          have haj : a.2 = j' := by rw [← hpack]
          have hjid : j'.jobId = J.jobId := by
            rw [← hpack] at haid
            exact haid
          have hj'J : j' = J :=
            List.inj_on_of_nodup_map hnd hj' hJ hjid
          rw [haj, hj'J, hst] at hCond
          simp at hCond
        case _ => cases ha
      · rcases failAcc_events cfg newJobs [] t _ h with h' | ⟨id, st, heq⟩
        · cases h'
        · cases heq
    · have hE2 : cfg.enableNotifications = false := by
        cases h2 : cfg.enableNotifications
        · rfl
        · exact absurd h2 hE
      rw [show checkJobStateChanges cfg oldJobs newJobs t = ([], t) from by
        unfold checkJobStateChanges; simp [hE2]] at hmem
      cases hmem
  · intro cfg s0 s1 s2 t0 J0 J1 J2 hE hS hnd0 hnd1 hnd2 hJ0 hst0 hJ1 hid1 hst1 hJ2 hid2 hst2
    have ht1eq : (checkJobStateChanges cfg s0 s1 t0).2 =
        s1.foldl (fun tb j => mapSet tb j.jobId j.state) t0 := by
      rw [checkJobStateChanges_enabled _ _ _ _ hE]
      exact failAcc_snd cfg s1 [] t0
    constructor
    · rw [checkJobStateChanges_enabled _ _ _ _ hE]
      simp only [List.mem_append, or_assoc]
      refine Or.inl ?_
      refine List.mem_filterMap.mpr ⟨(J1.jobId, J1), ?_, ?_⟩
      · rw [jsJobMap_eq_map s1 hnd1]
        exact List.mem_map.mpr ⟨J1, hJ1, rfl⟩
      · have hg : mapGet (jsJobMap s0) J1.jobId = some J0 := by
          rw [hid1]
          exact mapGet_jsJobMap_some s0 J0 hnd0 hJ0
        simp only [hS, hst1, hg, hid1]
        simp
        intro _
        exact ⟨J0, hid1 ▸ hg, hst0⟩
    · intro hmem
      rw [checkJobStateChanges_enabled _ _ _ _ hE] at hmem
      simp only [List.mem_append, or_assoc] at hmem
      rcases hmem with h | h | h
      · obtain ⟨a, hamem, ha⟩ := List.mem_filterMap.mp h
        split at ha
        case _ hCond =>
          have haid : a.1 = J0.jobId := by
            have := Option.some.inj ha
            simpa using this
          rw [jsJobMap_eq_map s2 hnd2] at hamem
          obtain ⟨j', hj', hpack⟩ := List.mem_map.mp hamem
          have haj : a.2 = j' := by rw [← hpack]
          have hjid : j'.jobId = J0.jobId := by
            rw [← hpack] at haid
            exact haid
          have hj'J2 : j' = J2 :=
            List.inj_on_of_nodup_map hnd2 hj' hJ2 (hjid.trans hid2.symm)
          have hg1 : mapGet (checkJobStateChanges cfg s0 s1 t0).2 J0.jobId = some "RUNNING" := by
            rw [ht1eq, ← hid1, mapGet_statesFold s1 J1 hnd1 hJ1 t0, hst1]
          have hg2 : mapGet (jsJobMap s1) J0.jobId = some J1 := by
            rw [← hid1]
            exact mapGet_jsJobMap_some s1 J1 hnd1 hJ1
          rw [haid] at hCond
          rw [hg1, hg2] at hCond
          simp [hst1] at hCond
        case _ => cases ha
      · obtain ⟨id, heq⟩ := mem_completedEvents _ _ _ _ h
        cases heq
      · rcases failAcc_events cfg s2 [] _ _ h with h' | ⟨id, st, heq⟩
        · cases h'
        · cases heq

/-- Witness for `reconciliation_spec`: all three parts applied to concrete
snapshots — job `1` RUNNING then gone fires *completed*; job `2` PENDING
then gone fires no completion; job `3` PENDING, RUNNING, RUNNING fires
*started* exactly on the first transition. -/
theorem reconciliation_spec_witness :
    JobEvent.completed "1" ∈
      (checkJobStateChanges ⟨true, true, true, true⟩ [mkJob "1" "RUNNING"] [] []).1 ∧
    JobEvent.completed "2" ∉
      (checkJobStateChanges ⟨true, true, true, true⟩ [mkJob "2" "PENDING"] [] []).1 ∧
    (JobEvent.started "3" ∈
      (checkJobStateChanges ⟨true, true, true, true⟩
        [mkJob "3" "PENDING"] [mkJob "3" "RUNNING"] []).1 ∧
     JobEvent.started "3" ∉
      (checkJobStateChanges ⟨true, true, true, true⟩ [mkJob "3" "RUNNING"] [mkJob "3" "RUNNING"]
        (checkJobStateChanges ⟨true, true, true, true⟩
          [mkJob "3" "PENDING"] [mkJob "3" "RUNNING"] []).2).1) :=
  ⟨reconciliation_spec.1 ⟨true, true, true, true⟩ [mkJob "1" "RUNNING"] [] []
      (mkJob "1" "RUNNING") rfl rfl (by decide) (by decide) (Or.inl rfl) (by decide),
   reconciliation_spec.2.1 ⟨true, true, true, true⟩ [mkJob "2" "PENDING"] [] []
      (mkJob "2" "PENDING") (by decide) (by decide) rfl (by decide),
   reconciliation_spec.2.2 ⟨true, true, true, true⟩ [mkJob "3" "PENDING"] [mkJob "3" "RUNNING"]
      [mkJob "3" "RUNNING"] [] (mkJob "3" "PENDING") (mkJob "3" "RUNNING") (mkJob "3" "RUNNING")
      rfl rfl (by decide) (by decide) (by decide) (by decide) rfl (by decide) rfl rfl
      (by decide) rfl rfl⟩

end SlurmMonitor
